import Mathlib

/-!
Shallow embedding of the oxi8 CHIP-8/SCHIP interpreter core
(`src/oxi8_cpu/src/lib.rs`) and verification of its specification.

Machine bytes (`u8`), words (`u16`) and nanosecond counters (`u128`) are
modelled as `Nat` with explicit `% 2^w` wrapping at the points where the
Rust code wraps; fallible operations return `Option`.
-/

namespace Oxi8

/-- `RAM_SIZE` from the source. -/
def RAM_SIZE : Nat := 4096

/-- `PROGRAM_OFFSET` from the source. -/
def PROGRAM_OFFSET : Nat := 512

/-- `NUM_REGISTERS` from the source. -/
def NUM_REGISTERS : Nat := 16

/-- `NUM_FLAG_REGISTERS` from the source. -/
def NUM_FLAG_REGISTERS : Nat := 8

/-- `STACK_SIZE` from the source. -/
def STACK_SIZE : Nat := 16

/-- `NUM_KEYS` from the source. -/
def NUM_KEYS : Nat := 16

/-- `NANOS_PER_SEC` from the source. -/
def NANOS_PER_SEC : Nat := 1000000000

/-- `trait Nibble` for `u8`: `fn high(&self) -> u8 { (self >> 4) & 0xF_u8 }`. -/
def Nibble.high (n : Nat) : Nat := (n >>> 4) &&& 0xF

/-- `trait Nibble` for `u8`: `fn low(&self) -> u8 { self & 0xF }`. -/
def Nibble.low (n : Nat) : Nat := n &&& 0xF

/-- `struct Instruction { wx: u8, yz: u8 }`: the two bytes of an instruction. -/
structure Instruction where
  wx : Nat
  yz : Nat
deriving DecidableEq

/-- `fn w(&self) -> u8 { self.wx.high() }` -/
def Instruction.w (i : Instruction) : Nat := Nibble.high i.wx

/-- `fn x(&self) -> u8 { self.wx.low() }` -/
def Instruction.x (i : Instruction) : Nat := Nibble.low i.wx

/-- `fn y(&self) -> u8 { self.yz.high() }` -/
def Instruction.y (i : Instruction) : Nat := Nibble.high i.yz

/-- `fn z(&self) -> u8 { self.yz.low() }` -/
def Instruction.z (i : Instruction) : Nat := Nibble.low i.yz

/-- `fn yz(&self) -> u8 { self.yz }` (the 8-bit low byte composite field). -/
def Instruction.yzByte (i : Instruction) : Nat := i.yz

/-- `fn xy(&self) -> u8 { self.wx.low() + self.yz.high() }` -/
def Instruction.xy (i : Instruction) : Nat := Nibble.low i.wx + Nibble.high i.yz

/-- `fn xyz(&self) -> u16 { (((self.wx as u16) << 8) + (self.yz as u16)) & 0xFFF }` -/
def Instruction.xyz (i : Instruction) : Nat := ((i.wx <<< 8) + i.yz) &&& 0xFFF

/-- The spec's words for the `xy` composite field, for refinement comparison:
"the concatenation of the x and y nibbles (x shifted left 4 bits, OR'd with y)". -/
def Instruction.xySpec (i : Instruction) : Nat := (i.x <<< 4) ||| i.y

/-- `enum KeyWait { None, Wait, Pressed(u8) }` -/
inductive KeyWait where
  | None : KeyWait
  | Wait : KeyWait
  | Pressed : Nat → KeyWait
deriving DecidableEq

/-- `struct Keyboard { keys: [bool; NUM_KEYS], keywait: KeyWait }` -/
structure Keyboard where
  keys : List Bool
  keywait : KeyWait
deriving DecidableEq

/-- `Keyboard::default()` -/
def Keyboard.default : Keyboard :=
  { keys := List.replicate NUM_KEYS false, keywait := KeyWait.None }

/-- `fn key_pressed(&self, keycode: u8) -> bool { self.keys[keycode as usize] }` -/
def Keyboard.key_pressed (kb : Keyboard) (keycode : Nat) : Bool :=
  kb.keys.getD keycode false

/-- `fn toggle_key(&mut self, key: Key, pressed: bool)`: sets the key state and,
when `pressed` and the wait state is `Wait`, moves the wait state to `Pressed(key)`. -/
def Keyboard.toggle_key (kb : Keyboard) (key : Nat) (pressed : Bool) : Keyboard :=
  let kb := { kb with keys := kb.keys.set key pressed }
  if pressed = true ∧ kb.keywait = KeyWait.Wait then
    { kb with keywait := KeyWait.Pressed key }
  else
    kb

/-- `struct Timer { cycle_every_nanos: u128, last_cycle_timestamp: u128 }` -/
structure Timer where
  cycle_every_nanos : Nat
  last_cycle_timestamp : Nat
deriving DecidableEq

/-- `Timer::new(rate_hz)` -/
def Timer.new (rate_hz : Nat) : Timer :=
  { cycle_every_nanos := NANOS_PER_SEC / rate_hz, last_cycle_timestamp := 0 }

/-- `fn num_cycles(&mut self, total_elapsed_nanos: u128) -> Range<u128>`: returns the
updated timer together with the number of due cycles (the length of the returned range). -/
def Timer.num_cycles (t : Timer) (total_elapsed_nanos : Nat) : Timer × Nat :=
  let nanos_since_last_cycle := total_elapsed_nanos - t.last_cycle_timestamp
  let num_instructions := nanos_since_last_cycle / t.cycle_every_nanos
  if num_instructions > 0 then
    ({ t with last_cycle_timestamp := total_elapsed_nanos }, num_instructions)
  else
    (t, 0)

/-- `struct Stack { stack: [u16; STACK_SIZE], sp: usize }` -/
structure Stack where
  stack : List Nat
  sp : Nat
deriving DecidableEq

/-- `Stack::new()` -/
def Stack.new : Stack := { stack := List.replicate STACK_SIZE 0, sp := 0 }

/-- `fn pop(&mut self) -> Option<u16>`: returns the updated stack and the popped value. -/
def Stack.pop (s : Stack) : Option (Stack × Nat) :=
  if s.sp = 0 then
    none
  else
    some ({ s with sp := s.sp - 1 }, s.stack.getD (s.sp - 1) 0)

/-- `fn push(&mut self, value: u16) -> Option<()>`: returns the updated stack on success. -/
def Stack.push (s : Stack) (value : Nat) : Option Stack :=
  if s.sp = STACK_SIZE then
    none
  else
    some { stack := s.stack.set s.sp value, sp := s.sp + 1 }

/-- `fn clear(&mut self) { self.sp = 0; }` (the slots are deliberately not zeroed). -/
def Stack.clear (s : Stack) : Stack := { s with sp := 0 }

/-- `u8::overflowing_add`: wrapped sum and the overflow bit. -/
def overflowing_add8 (a b : Nat) : Nat × Bool := ((a + b) % 256, decide (256 ≤ a + b))

/-- `u8::wrapping_sub` (both arguments below 256). -/
def wrapping_sub8 (a b : Nat) : Nat := (a + 256 - b) % 256

/-- The `0x8` register-register arithmetic family of `execute_instruction`:
reads `vy` and `vx` up front, computes the new `vx` by the low nibble `z`
(setting `v[0xF]` in the carry/borrow/shift arms exactly as the source does),
then stores the result into register `x`; the unknown-`z` `panic!` arm is `none`. -/
def exec8 (v : List Nat) (x y z : Nat) : Option (List Nat) :=
  let vy := v.getD y 0
  let vx := v.getD x 0
  match z with
  | 0x0 => some (v.set x vy)
  | 0x1 => some (v.set x (vx ||| vy))
  | 0x2 => some (v.set x (vx &&& vy))
  | 0x3 => some (v.set x (vx ^^^ vy))
  | 0x4 =>
    let p := overflowing_add8 vx vy
    some ((v.set 0xF (if p.2 then 1 else 0)).set x p.1)
  | 0x5 =>
    some ((v.set 0xF (if vx > vy then 1 else 0)).set x (wrapping_sub8 vx vy))
  | 0x6 =>
    some ((v.set 0xF (vx &&& 0b1)).set x (vx / 2))
  | 0x7 =>
    some ((v.set 0xF (if vy > vx then 1 else 0)).set x (wrapping_sub8 vy vx))
  | 0xE =>
    some ((v.set 0xF (vx &&& 0b10000000)).set x ((vx * 2) % 256))
  | _ => none

/-- The `trait Display` capability set the blit algorithms are written against:
dimensions, the hi-res flag, and a `u8`-valued pixel store
(`current_pixel`/`set_pixel`). -/
structure Disp where
  width : Nat
  height : Nat
  hires : Bool
  pix : Nat → Nat → Nat

/-- `fn current_pixel(&self, x, y) -> u8` -/
def Disp.current_pixel (d : Disp) (x y : Nat) : Nat := d.pix x y

/-- `fn set_pixel(&mut self, x, y, new_pixel)` -/
def Disp.set_pixel (d : Disp) (x y new_pixel : Nat) : Disp :=
  { d with pix := fun a b => if a = x ∧ b = y then new_pixel else d.pix a b }

/-- `(byte >> (7 - bit_number)) & 1`: sprite bit `bit_number`, MSB first. -/
def spriteBit (byte bit_number : Nat) : Nat := (byte >>> (7 - bit_number)) &&& 1

/-- The `for bit_number in 0..8` loop body of `draw_byte`, processing the given
bit numbers in order and accumulating `pixel_turned_off`. -/
def Disp.drawBits (d : Disp) (pixel_turned_off : Bool) (starting_x y byte : Nat) :
    List Nat → Disp × Bool
  | [] => (d, pixel_turned_off)
  | bit_number :: rest =>
    Disp.drawBits
      (d.set_pixel ((starting_x + bit_number) % d.width) y
        (spriteBit byte bit_number ^^^
          d.current_pixel ((starting_x + bit_number) % d.width) y))
      (pixel_turned_off ||
        (d.current_pixel ((starting_x + bit_number) % d.width) y == 1 &&
          (spriteBit byte bit_number ^^^
            d.current_pixel ((starting_x + bit_number) % d.width) y) == 0))
      starting_x y byte rest

/-- `fn draw_byte(&mut self, starting_x, y, byte) -> bool`: XOR-blit one sprite byte
at row `y`, each bit at column `(starting_x + bit_number) % width`; reports whether
any pixel went 1 → 0. -/
def Disp.draw_byte (d : Disp) (starting_x y byte : Nat) : Disp × Bool :=
  d.drawBits false starting_x y byte (List.range 8)

/-- The `for byte in memory.iter()` loop of `draw`: one `draw_byte` per byte, the
row advancing by `(y + 1) % height` each time. -/
def Disp.drawAux (d : Disp) (pixel_turned_off : Bool) (starting_x y : Nat) :
    List Nat → Disp × Bool
  | [] => (d, pixel_turned_off)
  | byte :: rest =>
    Disp.drawAux (d.draw_byte starting_x y byte).1
      (pixel_turned_off || (d.draw_byte starting_x y byte).2) starting_x
      ((y + 1) % (d.draw_byte starting_x y byte).1.height) rest

/-- `fn draw(&mut self, starting_x, starting_y, memory) -> bool` -/
def Disp.draw (d : Disp) (starting_x starting_y : Nat) (memory : List Nat) : Disp × Bool :=
  d.drawAux false starting_x (starting_y % d.height) memory

/-- The `for _ in 1..16` loop of `schip_draw` (which iterates 15 times), consuming a
(left, right) byte pair per iteration; the two `iter.next().unwrap()` calls cannot
fail on the 32-byte slices the call site passes, so the short-list arms (which stop
early) are unreachable there. -/
def Disp.schipDrawAux (d : Disp) (pixel_turned_off : Bool)
    (starting_x hires_starting_x : Nat) (hires : Bool) (y : Nat) :
    Nat → List Nat → Disp × Bool
  | 0, _ => (d, pixel_turned_off)
  | _ + 1, [] => (d, pixel_turned_off)
  | _ + 1, [_] => (d, pixel_turned_off)
  | n + 1, left :: right :: rest =>
    let p := d.draw_byte starting_x y left
    let po := pixel_turned_off || p.2
    let q :=
      if hires then
        let r := p.1.draw_byte hires_starting_x y right
        (r.1, po || r.2)
      else
        (p.1, po)
    Disp.schipDrawAux q.1 q.2 starting_x hires_starting_x hires ((y + 1) % q.1.height) n rest

/-- `fn schip_draw(&mut self, starting_x, starting_y, memory) -> bool`: the Rust
loop header is `for _ in 1..16`, so 15 row-pairs are processed. -/
def Disp.schip_draw (d : Disp) (starting_x starting_y : Nat) (memory : List Nat) :
    Disp × Bool :=
  d.schipDrawAux false starting_x (starting_x + 8) d.hires (starting_y % d.height) 15 memory

/-- `const WIDTH: usize = DISPLAY_WIDTH as usize` (= 64). -/
def WIDTH : Nat := 64

/-- `const HEIGHT: usize = DISPLAY_HEIGHT as usize` (= 32). -/
def HEIGHT : Nat := 32

/-- `Vec::resize(n, v)`: truncate to `n` elements, or extend with copies of `v`. -/
def listResize (l : List α) (n : Nat) (v : α) : List α :=
  l.take n ++ List.replicate (n - l.length) v

/-- `struct BoolDisplay { buffer: Vec<Vec<bool>>, scale: u32, width, height, hires }` -/
structure BoolDisplay where
  buffer : List (List Bool)
  scale : Nat
  width : Nat
  height : Nat
  hires : Bool
deriving DecidableEq

/-- `BoolDisplay::new(scale)` -/
def BoolDisplay.new (scale : Nat) : BoolDisplay :=
  { width := WIDTH, height := HEIGHT,
    buffer := List.replicate HEIGHT (List.replicate WIDTH false),
    scale := scale, hires := false }

/-- `fn clear(&mut self)` for `BoolDisplay`: every pixel becomes false. -/
def BoolDisplay.clear (d : BoolDisplay) : BoolDisplay :=
  { d with buffer := d.buffer.map (fun row => row.map (fun _ => false)) }

/-- `fn set_hires(&mut self, on: bool)` for `BoolDisplay`: an early-return no-op when
the requested mode equals the current one; otherwise flips the flag, resizes the
buffer (`Vec::resize` on the rows and on each row), halves or doubles the scale, and
finally clears. -/
def BoolDisplay.set_hires (d : BoolDisplay) (o : Bool) : BoolDisplay :=
  if d.hires = o then
    d
  else
    let d := { d with hires := o }
    let d :=
      if o then
        { d with
          height := HEIGHT * 2
          width := WIDTH * 2
          buffer := (listResize d.buffer (HEIGHT * 2)
              (List.replicate (WIDTH * 2) false)).map
            (fun row => listResize row (WIDTH * 2) false)
          scale := d.scale / 2 }
      else
        { d with
          height := HEIGHT
          width := WIDTH
          buffer := (d.buffer.take HEIGHT).map (fun row => row.take WIDTH)
          scale := d.scale * 2 }
    d.clear

/-- `struct Cpu { ... }`: the interpreter state. The wall-clock `start_time: Instant`
field is outside the embedding; everything else is carried. -/
structure Cpu where
  i : Nat
  v : List Nat
  flag : List Nat
  delay : Nat
  sound : Nat
  ram : List Nat
  pc : Nat
  stack : Stack
  display : BoolDisplay
  keyboard : Keyboard
  clock_rate_hz : Nat
  cpu_timer : Timer
  delay_timer : Timer
  num_instructions_per_decrement : Nat
deriving DecidableEq

/-- `fn reset(&mut self)`: zeroes `i`, the general registers, `delay`, `sound`;
rewinds `pc` to `PROGRAM_OFFSET`; clears the stack pointer; drops to lo-res;
clears the key wait; rewinds both timers. It touches neither `flag` nor `ram`
nor the stored stack slots nor the key states. -/
def Cpu.reset (c : Cpu) : Cpu :=
  { c with
    i := 0
    v := List.replicate NUM_REGISTERS 0
    delay := 0
    sound := 0
    pc := PROGRAM_OFFSET
    stack := c.stack.clear
    display := c.display.set_hires false
    keyboard := { c.keyboard with keywait := KeyWait.None }
    cpu_timer := { c.cpu_timer with last_cycle_timestamp := 0 }
    delay_timer := { c.delay_timer with last_cycle_timestamp := 0 } }

/-- The `Fx0A` (LD Vx, K: wait for a key press) arm of `execute_instruction`,
combined with `execute_next_instruction`'s assignment of the returned program
counter: the wait state machine is polled; with no key yet the pc is first rewound
by 2, and the trailing `self.next()` of the `0xF` family returns `pc + 2`. -/
def Cpu.executeFx0A (c : Cpu) (x : Nat) : Cpu :=
  let found_c : Cpu × Bool :=
    match c.keyboard.keywait with
    | KeyWait.None =>
      ({ c with keyboard := { c.keyboard with keywait := KeyWait.Wait } }, false)
    | KeyWait.Wait => (c, false)
    | KeyWait.Pressed key_value => ({ c with v := c.v.set x key_value }, true)
  let c2 :=
    if found_c.2 then
      { found_c.1 with keyboard := { found_c.1.keyboard with keywait := KeyWait.None } }
    else
      { found_c.1 with pc := found_c.1.pc - 2 }
  { c2 with pc := c2.pc + 2 }

end Oxi8

namespace Oxi8

/-- C2 counterexample: on the instruction with bytes `wx = 0x01`, `yz = 0x00`
(x nibble 1, y nibble 0) the decoder's `xy` field is `1`, not the nibble
concatenation `0x10 = 16` the claim asserts. -/
theorem Instruction.xy_ne_concat_at_0100 :
    Instruction.xy ⟨0x01, 0x00⟩ = 1 ∧ Instruction.xySpec ⟨0x01, 0x00⟩ = 16 ∧
      Instruction.xy ⟨0x01, 0x00⟩ ≠ Instruction.xySpec ⟨0x01, 0x00⟩ := by
  refine ⟨by decide, by decide, by decide⟩

/-- Auxiliary: low nibble is `% 16`, high nibble is `/ 16` for bytes. -/
theorem Nibble.low_eq_mod (n : Nat) : Nibble.low n = n % 16 := by
  show n &&& 15 = n % 16
  have : (15 : Nat) = 2 ^ 4 - 1 := by decide
  rw [this, Nat.and_pow_two_sub_one_eq_mod]

/-- Auxiliary: for a byte, the high nibble is division by 16. -/
theorem Nibble.high_eq_div (n : Nat) (h : n < 256) : Nibble.high n = n / 16 := by
  show (n >>> 4) &&& 15 = n / 16
  rw [Nat.shiftRight_eq_div_pow]
  have h16 : n / 2 ^ 4 < 16 := by omega
  have : (15 : Nat) = 2 ^ 4 - 1 := by decide
  rw [this, Nat.and_pow_two_sub_one_eq_mod]
  omega

/-- C2 (amended): for every 2-byte instruction, the `xy` composite field is the
arithmetic *sum* of the x and y nibbles, and it coincides with the spec's nibble
concatenation `(x <<< 4) ||| y` exactly when the x nibble is zero — which holds at
its only decoder use, the `00Cz` scroll-down match. -/
theorem Instruction.xy_eq_sum (i : Instruction) (hwx : i.wx < 256) (hyz : i.yz < 256) :
    i.xy = i.x + i.y ∧ (i.xy = i.xySpec ↔ i.x = 0) := by
  have hx : i.x = i.wx % 16 := Nibble.low_eq_mod i.wx
  have hy : i.y = i.yz / 16 := Nibble.high_eq_div i.yz hyz
  have hxy : i.xy = i.wx % 16 + i.yz / 16 := by
    unfold Instruction.xy
    rw [Nibble.low_eq_mod, Nibble.high_eq_div i.yz hyz]
  constructor
  · rw [hxy, hx, hy]
  · have hxlt : i.x < 16 := by rw [hx]; omega
    have hylt : i.y < 16 := by rw [hy]; omega
    have hspec : i.xySpec = 16 * i.x + i.y := by
      unfold Instruction.xySpec
      have hs : i.x <<< 4 = 16 * i.x := by
        rw [Nat.shiftLeft_eq]; ring
      rw [hs]
      have hdisj : ∀ a < 16, ∀ b < 16, 16 * a ||| b = 16 * a + b := by
        decide
      exact hdisj i.x hxlt i.y hylt
    rw [hspec, hxy, hx, hy]
    omega

/-- C2 witness: the amended statement instantiated at the concrete instruction `0x00C3`. -/
theorem Instruction.xy_eq_sum_witness :
    Instruction.xy ⟨0x00, 0xC3⟩ = Instruction.x ⟨0x00, 0xC3⟩ + Instruction.y ⟨0x00, 0xC3⟩ ∧
      (Instruction.xy ⟨0x00, 0xC3⟩ = Instruction.xySpec ⟨0x00, 0xC3⟩ ↔
        Instruction.x ⟨0x00, 0xC3⟩ = 0) :=
  Instruction.xy_eq_sum ⟨0x00, 0xC3⟩ (by decide) (by decide)

/-- C5: `Timer.num_cycles` reports exactly `(total − last) / period` due cycles;
when at least one cycle is due the last-serviced timestamp is re-based to the
current total elapsed time, and when none is due the timer is unchanged.
Concretely, a 500 Hz timer (period 2,000,000 ns) with a 2,000,000 ns delta yields
exactly 1 cycle, and a 60 Hz timer with a 16,666,667 ns delta yields exactly 1 cycle. -/
theorem Timer.num_cycles_spec (t : Timer) (total : Nat)
    (hle : t.last_cycle_timestamp ≤ total) (hpos : 0 < t.cycle_every_nanos) :
    (t.num_cycles total).2 = (total - t.last_cycle_timestamp) / t.cycle_every_nanos ∧
      (1 ≤ (t.num_cycles total).2 →
        (t.num_cycles total).1.last_cycle_timestamp = total) ∧
      ((t.num_cycles total).2 = 0 → (t.num_cycles total).1 = t) ∧
      (t.num_cycles total).1.cycle_every_nanos = t.cycle_every_nanos ∧
      ((Timer.new 500).num_cycles 2000000).2 = 1 ∧
      ((Timer.new 60).num_cycles 16666667).2 = 1 := by
  have hnc : t.num_cycles total =
      if (total - t.last_cycle_timestamp) / t.cycle_every_nanos > 0 then
        ({ t with last_cycle_timestamp := total },
          (total - t.last_cycle_timestamp) / t.cycle_every_nanos)
      else (t, 0) := rfl
  by_cases h : (total - t.last_cycle_timestamp) / t.cycle_every_nanos > 0
  · rw [hnc, if_pos h]
    exact ⟨rfl, fun _ => rfl, fun hz => absurd hz (by omega), rfl, by decide, by decide⟩
  · rw [hnc, if_neg h]
    have h0 := Nat.eq_zero_of_not_pos h
    exact ⟨h0.symm, fun hc => absurd hc (by omega), fun _ => rfl, rfl, by decide, by decide⟩

/-- C5 witness: the timer statement instantiated at a 60 Hz timer last serviced at 0,
observed at 16,666,667 ns. -/
theorem Timer.num_cycles_spec_witness :
    ((Timer.new 60).num_cycles 16666667).2 =
        (16666667 - (Timer.new 60).last_cycle_timestamp) / (Timer.new 60).cycle_every_nanos ∧
      (1 ≤ ((Timer.new 60).num_cycles 16666667).2 →
        ((Timer.new 60).num_cycles 16666667).1.last_cycle_timestamp = 16666667) ∧
      (((Timer.new 60).num_cycles 16666667).2 = 0 →
        ((Timer.new 60).num_cycles 16666667).1 = Timer.new 60) ∧
      ((Timer.new 60).num_cycles 16666667).1.cycle_every_nanos =
        (Timer.new 60).cycle_every_nanos ∧
      ((Timer.new 500).num_cycles 2000000).2 = 1 ∧
      ((Timer.new 60).num_cycles 16666667).2 = 1 :=
  Timer.num_cycles_spec (Timer.new 60) 16666667 (by decide) (by decide)

/-- C9: `Stack.push` fails exactly when the depth is 16, `Stack.pop` fails exactly
when the depth is 0 (in this pure model a failed operation returns `none` and leaves
the original stack untouched), and a successful push followed by a pop returns the
pushed value with the original depth restored. -/
theorem Stack.push_pop_spec (s : Stack) (value : Nat)
    (hsp : s.sp ≤ STACK_SIZE) (hlen : s.stack.length = STACK_SIZE) :
    (s.push value = none ↔ s.sp = 16) ∧
      (s.pop = none ↔ s.sp = 0) ∧
      (∀ s' : Stack, s.push value = some s' →
        s'.sp = s.sp + 1 ∧ s'.pop = some ({ s' with sp := s.sp }, value)) := by
  refine ⟨?_, ?_, ?_⟩
  · unfold Stack.push
    by_cases h : s.sp = STACK_SIZE
    · simp [h, STACK_SIZE]
    · simp only [h, if_neg, if_false]
      simp [STACK_SIZE] at h ⊢
      omega
  · unfold Stack.pop
    by_cases h : s.sp = 0 <;> simp [h]
  · intro s' hs'
    unfold Stack.push at hs'
    by_cases h : s.sp = STACK_SIZE
    · simp [h] at hs'
    · simp only [h, if_neg, if_false, Option.some.injEq] at hs'
      subst hs'
      refine ⟨rfl, ?_⟩
      unfold Stack.pop
      simp only [Nat.add_sub_cancel]
      have hlt : s.sp < s.stack.length := by
        rw [hlen]; unfold STACK_SIZE at h hsp ⊢; omega
      simp [List.getD, List.getElem?_set_self hlt]

/-- C9 witness: the stack statement instantiated at the fresh stack and value 7. -/
theorem Stack.push_pop_spec_witness :
    (Stack.new.push 7 = none ↔ Stack.new.sp = 16) ∧
      (Stack.new.pop = none ↔ Stack.new.sp = 0) ∧
      (∀ s' : Stack, Stack.new.push 7 = some s' →
        s'.sp = Stack.new.sp + 1 ∧ s'.pop = some ({ s' with sp := Stack.new.sp }, 7)) :=
  Stack.push_pop_spec Stack.new 7 (by decide) (by decide)

/-- C10: `toggle_key` with `pressed = false` never changes the wait state; with
`pressed = true` it changes the wait state only from `Wait`; and once the wait state
is `Pressed k`, no later `toggle_key` call overwrites the captured value `k`. -/
theorem Keyboard.toggle_key_keywait_spec (kb : Keyboard) (key : Nat) :
    ((kb.toggle_key key false).keywait = kb.keywait) ∧
      (kb.keywait ≠ KeyWait.Wait → ∀ pressed : Bool,
        (kb.toggle_key key pressed).keywait = kb.keywait) ∧
      (∀ k : Nat, kb.keywait = KeyWait.Pressed k → ∀ key2 : Nat, ∀ pressed : Bool,
        (kb.toggle_key key2 pressed).keywait = KeyWait.Pressed k) := by
  refine ⟨?_, ?_, ?_⟩
  · unfold Keyboard.toggle_key
    simp
  · intro hne pressed
    unfold Keyboard.toggle_key
    simp only
    rw [if_neg]
    simp [hne]
  · intro k hk key2 pressed
    unfold Keyboard.toggle_key
    simp only
    rw [if_neg]
    · exact hk
    · simp [hk]

/-- C10 witness: the keyboard wait statement instantiated at a keyboard whose wait
state has already captured key 3; toggling key 5 on does not overwrite it. -/
theorem Keyboard.toggle_key_keywait_spec_witness :
    (({ keys := List.replicate 16 false, keywait := KeyWait.Pressed 3 : Keyboard }.toggle_key
        5 false).keywait = KeyWait.Pressed 3) ∧
      (({ keys := List.replicate 16 false, keywait := KeyWait.Pressed 3 : Keyboard }.toggle_key
        5 true).keywait = KeyWait.Pressed 3) := by
  have h := Keyboard.toggle_key_keywait_spec
    { keys := List.replicate 16 false, keywait := KeyWait.Pressed 3 } 5
  exact ⟨h.2.2 3 rfl 5 false, h.2.2 3 rfl 5 true⟩

/-- Auxiliary: setting a different index leaves `getD` unchanged. -/
theorem getD_set_ne (l : List Nat) (i j a : Nat) (h : i ≠ j) :
    (l.set i a).getD j 0 = l.getD j 0 := by
  simp [List.getD, List.getElem?_set_ne h]

/-- Auxiliary: `getD` at an in-bounds index just set. -/
theorem getD_set_self (l : List Nat) (i a : Nat) (h : i < l.length) :
    (l.set i a).getD i 0 = a := by
  simp [List.getD, List.getElem?_set_self h]

set_option maxRecDepth 4000 in
/-- Auxiliary: `&&& 128` on a byte is 0 or 128. -/
theorem and_128_cases : ∀ a < 256, a &&& 128 = 0 ∨ a &&& 128 = 128 := by decide

/-- C3: the register-register arithmetic opcodes never hit the panic arm and, writing
`vx`,`vy` for the operand registers' values (destination register distinct from V15):
ADD (8xy4) sets V15 to 1 exactly on unsigned 8-bit overflow and stores the sum mod 256;
SUB (8xy5) sets V15 to 1 exactly when `vx > vy` (equality gives 0) and stores the
wrapped difference; SHR (8xy6) sets V15 to the pre-shift least-significant bit and
halves `vx`; SUBN (8xy7) sets V15 to 1 exactly when `vy > vx` and stores `vy - vx`
wrapped; SHL (8xyE) sets V15 to the pre-shift `vx &&& 128` (so 0 or 128, never
normalized to 1) and doubles `vx` mod 256. -/
theorem exec8_arith_spec (v : List Nat) (x y vx vy : Nat)
    (hx : x < 16) (hxF : x ≠ 0xF) (hlen : v.length = 16)
    (hgx : v.getD x 0 = vx) (hgy : v.getD y 0 = vy)
    (hvx : vx < 256) (hvy : vy < 256) :
    (∃ v4, exec8 v x y 0x4 = some v4 ∧
      v4.getD 0xF 0 = (if 256 ≤ vx + vy then 1 else 0) ∧
      v4.getD x 0 = (vx + vy) % 256) ∧
    (∃ v5, exec8 v x y 0x5 = some v5 ∧
      v5.getD 0xF 0 = (if vx > vy then 1 else 0) ∧
      v5.getD x 0 = (vx + 256 - vy) % 256) ∧
    (∃ v6, exec8 v x y 0x6 = some v6 ∧
      v6.getD 0xF 0 = vx % 2 ∧
      v6.getD x 0 = vx / 2) ∧
    (∃ v7, exec8 v x y 0x7 = some v7 ∧
      v7.getD 0xF 0 = (if vy > vx then 1 else 0) ∧
      v7.getD x 0 = (vy + 256 - vx) % 256) ∧
    (∃ vE, exec8 v x y 0xE = some vE ∧
      vE.getD 0xF 0 = vx &&& 128 ∧ (vE.getD 0xF 0 = 0 ∨ vE.getD 0xF 0 = 128) ∧
      vE.getD x 0 = (vx * 2) % 256) := by
  subst hgx
  subst hgy
  have hset : ∀ f r : Nat, ((v.set 0xF f).set x r).getD 0xF 0 = f := by
    intro f r
    rw [getD_set_ne _ _ _ _ hxF, getD_set_self]
    simp [hlen]
  have hsetx : ∀ f r : Nat, ((v.set 0xF f).set x r).getD x 0 = r := by
    intro f r
    rw [getD_set_self]
    simp [hlen]; omega
  refine ⟨⟨_, rfl, ?_, ?_⟩, ⟨_, rfl, ?_, ?_⟩, ⟨_, rfl, ?_, ?_⟩, ⟨_, rfl, ?_, ?_⟩,
    ⟨_, rfl, ?_, ?_, ?_⟩⟩
  · rw [hset]; simp [overflowing_add8]
  · rw [hsetx]; rfl
  · rw [hset]
  · rw [hsetx]; rfl
  · rw [hset, Nat.and_one_is_mod]
  · rw [hsetx]
  · rw [hset]
  · rw [hsetx]; rfl
  · rw [hset]
  · rw [hset]; exact and_128_cases _ hvx
  · rw [hsetx]

/-- C3 witness: the arithmetic statement instantiated at x = 0, y = 1 on the register
file `[200, 100, 0, …, 0]` (so `vx = 200`, `vy = 100`). -/
theorem exec8_arith_spec_witness :
    (∃ v4, exec8 (200 :: 100 :: List.replicate 14 0) 0 1 0x4 = some v4 ∧
      v4.getD 0xF 0 = (if 256 ≤ 200 + 100 then 1 else 0) ∧
      v4.getD 0 0 = (200 + 100) % 256) ∧
    (∃ v5, exec8 (200 :: 100 :: List.replicate 14 0) 0 1 0x5 = some v5 ∧
      v5.getD 0xF 0 = (if 200 > 100 then 1 else 0) ∧
      v5.getD 0 0 = (200 + 256 - 100) % 256) ∧
    (∃ v6, exec8 (200 :: 100 :: List.replicate 14 0) 0 1 0x6 = some v6 ∧
      v6.getD 0xF 0 = 200 % 2 ∧
      v6.getD 0 0 = 200 / 2) ∧
    (∃ v7, exec8 (200 :: 100 :: List.replicate 14 0) 0 1 0x7 = some v7 ∧
      v7.getD 0xF 0 = (if 100 > 200 then 1 else 0) ∧
      v7.getD 0 0 = (100 + 256 - 200) % 256) ∧
    (∃ vE, exec8 (200 :: 100 :: List.replicate 14 0) 0 1 0xE = some vE ∧
      vE.getD 0xF 0 = 200 &&& 128 ∧ (vE.getD 0xF 0 = 0 ∨ vE.getD 0xF 0 = 128) ∧
      vE.getD 0 0 = (200 * 2) % 256) :=
  exec8_arith_spec (200 :: 100 :: List.replicate 14 0) 0 1 200 100
    (by decide) (by decide) (by decide) (by decide) (by decide) (by decide) (by decide)

/-- Auxiliary: congruence for `List.any`. -/
theorem list_any_congr (l : List Nat) (f g : Nat → Bool) (h : ∀ x ∈ l, f x = g x) :
    l.any f = l.any g := by
  induction l with
  | nil => rfl
  | cons a t ih =>
    simp only [List.any_cons]
    rw [h a (by simp), ih (fun x hx => h x (by simp [hx]))]

/-- Auxiliary: adding distinct offsets below the modulus lands on distinct residues. -/
theorem add_mod_inj (s m n w : Nat) (hm : m < w) (hn : n < w)
    (h : (s + m) % w = (s + n) % w) : m = n := by
  have h1 : m ≡ n [MOD w] := Nat.ModEq.add_left_cancel' s h
  have h2 : m % w = n % w := h1
  rw [Nat.mod_eq_of_lt hm, Nat.mod_eq_of_lt hn] at h2
  exact h2

/-- Auxiliary: shifting a row by `0 < m < h` changes its residue. -/
theorem add_mod_ne (y m h : Nat) (hm1 : 0 < m) (hm2 : m < h) :
    (y + m) % h ≠ y % h := by
  intro heq
  have heq0 : (y + m) % h = (y + 0) % h := by simpa using heq
  have h0 := add_mod_inj y m 0 h hm2 (by omega) heq0
  omega

/-- Auxiliary: `set_pixel` only changes the pixel store. -/
theorem set_pixel_frame (d : Disp) (x y v : Nat) :
    (d.set_pixel x y v).width = d.width ∧ (d.set_pixel x y v).height = d.height ∧
      (d.set_pixel x y v).hires = d.hires :=
  ⟨rfl, rfl, rfl⟩

/-- Auxiliary: reading a position other than the one just set. -/
theorem set_pixel_pix_ne (d : Disp) (x y v a c : Nat) (h : ¬(a = x ∧ c = y)) :
    (d.set_pixel x y v).pix a c = d.pix a c := by
  unfold Disp.set_pixel
  simp only
  rw [if_neg h]

/-- Auxiliary: reading the position just set. -/
theorem set_pixel_pix_self (d : Disp) (x y v : Nat) :
    (d.set_pixel x y v).pix x y = v := by
  unfold Disp.set_pixel
  simp

/-- Auxiliary: `drawBits` leaves width, height and the hi-res flag unchanged. -/
theorem drawBits_frame (L : List Nat) : ∀ (d : Disp) (po : Bool) (sx y b : Nat),
    (d.drawBits po sx y b L).1.width = d.width ∧
      (d.drawBits po sx y b L).1.height = d.height ∧
      (d.drawBits po sx y b L).1.hires = d.hires := by
  induction L with
  | nil => intro d po sx y b; exact ⟨rfl, rfl, rfl⟩
  | cons bit rest ih =>
    intro d po sx y b
    simp only [Disp.drawBits]
    exact ih _ _ _ _ _

/-- Auxiliary: `drawBits` does not change pixels outside the targeted positions. -/
theorem drawBits_pix_ne (L : List Nat) : ∀ (d : Disp) (po : Bool) (sx y b a c : Nat),
    (∀ bit ∈ L, ¬(a = (sx + bit) % d.width ∧ c = y)) →
    (d.drawBits po sx y b L).1.pix a c = d.pix a c := by
  induction L with
  | nil => intro d po sx y b a c _; rfl
  | cons bit rest ih =>
    intro d po sx y b a c hno
    simp only [Disp.drawBits]
    refine (ih _ _ _ _ _ _ _ ?_).trans ?_
    · intro b2 hb2
      exact hno b2 (by simp [hb2])
    · exact set_pixel_pix_ne _ _ _ _ _ _ (hno bit (by simp))

/-- Auxiliary: `drawBits` XORs each targeted pixel with its sprite bit, provided the
targeted positions are pairwise distinct and each bit number occurs once. -/
theorem drawBits_pix_hit (L : List Nat) : ∀ (d : Disp) (po : Bool) (sx y b bit : Nat),
    L.Nodup → bit ∈ L →
    (∀ b1 ∈ L, ∀ b2 ∈ L, (sx + b1) % d.width = (sx + b2) % d.width → b1 = b2) →
    (d.drawBits po sx y b L).1.pix ((sx + bit) % d.width) y =
      spriteBit b bit ^^^ d.pix ((sx + bit) % d.width) y := by
  induction L with
  | nil => intro d po sx y b bit _ hmem _; exact absurd hmem (by simp)
  | cons bit0 rest ih =>
    intro d po sx y b bit hnd hmem hinj
    simp only [Disp.drawBits]
    rcases List.mem_cons.mp hmem with heq | hmem2
    · subst heq
      refine (drawBits_pix_ne rest _ _ _ _ _ _ _ ?_).trans
        (set_pixel_pix_self _ _ _ _)
      intro b2 hb2 hc
      have hb2bit : b2 = bit := hinj b2 (by simp [hb2]) bit (by simp) hc.1.symm
      subst hb2bit
      exact (List.nodup_cons.mp hnd).1 hb2
    · have hne : ¬((sx + bit) % d.width = (sx + bit0) % d.width ∧ y = y) := by
        intro hc
        have hb : bit = bit0 := hinj bit (by simp [hmem2]) bit0 (by simp) hc.1
        subst hb
        exact (List.nodup_cons.mp hnd).1 hmem2
      have hstep : (d.set_pixel ((sx + bit0) % d.width) y
          (spriteBit b bit0 ^^^
            d.current_pixel ((sx + bit0) % d.width) y)).pix ((sx + bit) % d.width) y =
          d.pix ((sx + bit) % d.width) y :=
        set_pixel_pix_ne _ _ _ _ _ _ hne
      refine (ih _ _ _ _ _ _ (List.nodup_cons.mp hnd).2 hmem2 ?_).trans
        (congrArg (fun t => spriteBit b bit ^^^ t) hstep)
      intro b1 h1 b2 h2 hxy
      exact hinj b1 (by simp [h1]) b2 (by simp [h2]) hxy

/-- Auxiliary: the sprite bit is 0 or 1. -/
theorem spriteBit_le_one (b i : Nat) : spriteBit b i = 0 ∨ spriteBit b i = 1 := by
  unfold spriteBit
  rcases Nat.and_one_is_mod (b >>> (7 - i)) ▸ Nat.mod_two_eq_zero_or_one (b >>> (7 - i)) with
    h | h <;> [left; right] <;> omega

/-- Auxiliary: the per-bit 1 → 0 collision test equals "pixel set and sprite bit set". -/
theorem collision_step (s cur : Nat) (hs : s = 0 ∨ s = 1) :
    ((cur == 1) && ((s ^^^ cur) == 0)) = ((cur == 1) && (s == 1)) := by
  rcases hs with h | h <;> subst h
  · simp only [Nat.zero_xor]
    by_cases hc : cur = 1
    · subst hc; rfl
    · simp [hc]
  · by_cases hc : cur = 1
    · subst hc; rfl
    · have : ¬(1 ^^^ cur = 0) := by
        intro hx
        exact hc (Nat.xor_eq_zero.mp hx).symm
      simp [hc, this]

/-- Auxiliary: the collision flag accumulated by `drawBits`, under distinct targets. -/
theorem drawBits_snd (L : List Nat) : ∀ (d : Disp) (po : Bool) (sx y b : Nat),
    L.Nodup →
    (∀ b1 ∈ L, ∀ b2 ∈ L, (sx + b1) % d.width = (sx + b2) % d.width → b1 = b2) →
    (d.drawBits po sx y b L).2 =
      (po || L.any (fun bit =>
        (d.pix ((sx + bit) % d.width) y == 1) && (spriteBit b bit == 1))) := by
  induction L with
  | nil => intro d po sx y b _ _; simp [Disp.drawBits]
  | cons bit0 rest ih =>
    intro d po sx y b hnd hinj
    simp only [Disp.drawBits, List.any_cons]
    have e1 := ih (d.set_pixel ((sx + bit0) % d.width) y
        (spriteBit b bit0 ^^^ d.current_pixel ((sx + bit0) % d.width) y))
      (po || ((d.current_pixel ((sx + bit0) % d.width) y == 1) &&
        ((spriteBit b bit0 ^^^ d.current_pixel ((sx + bit0) % d.width) y) == 0)))
      sx y b (List.nodup_cons.mp hnd).2 ?hinj2
    case hinj2 =>
      intro b1 h1 b2 h2 hxy
      exact hinj b1 (by simp [h1]) b2 (by simp [h2]) hxy
    refine e1.trans ?_
    have hany : (d.set_pixel ((sx + bit0) % d.width) y
          (spriteBit b bit0 ^^^ d.current_pixel ((sx + bit0) % d.width) y)).pix =
        fun a c => if a = (sx + bit0) % d.width ∧ c = y then
          spriteBit b bit0 ^^^ d.current_pixel ((sx + bit0) % d.width) y
        else d.pix a c := rfl
    have hrest : List.any rest (fun bit =>
        ((d.set_pixel ((sx + bit0) % d.width) y
          (spriteBit b bit0 ^^^ d.current_pixel ((sx + bit0) % d.width) y)).pix
            ((sx + bit) %
              (d.set_pixel ((sx + bit0) % d.width) y
                (spriteBit b bit0 ^^^
                  d.current_pixel ((sx + bit0) % d.width) y)).width) y == 1) &&
          (spriteBit b bit == 1)) =
        List.any rest (fun bit =>
          (d.pix ((sx + bit) % d.width) y == 1) && (spriteBit b bit == 1)) := by
      refine list_any_congr rest _ _ ?_
      intro b2 hb2
      have hne : ¬((sx + b2) % d.width = (sx + bit0) % d.width ∧ y = y) := by
        intro hc
        have hb : b2 = bit0 := hinj b2 (by simp [hb2]) bit0 (by simp) hc.1
        subst hb
        exact (List.nodup_cons.mp hnd).1 hb2
      have hpixne := set_pixel_pix_ne d ((sx + bit0) % d.width) y
        (spriteBit b bit0 ^^^ d.current_pixel ((sx + bit0) % d.width) y)
        ((sx + b2) % d.width) y hne
      exact congrArg (fun t => (t == 1) && (spriteBit b b2 == 1)) hpixne
    refine (congrArg (fun t =>
      (po || ((d.current_pixel ((sx + bit0) % d.width) y == 1) &&
        ((spriteBit b bit0 ^^^ d.current_pixel ((sx + bit0) % d.width) y) == 0))) || t)
      hrest).trans ?_
    have hcoll := collision_step (spriteBit b bit0) (d.pix ((sx + bit0) % d.width) y)
      (spriteBit_le_one b bit0)
    show (po || ((d.pix ((sx + bit0) % d.width) y == 1) &&
        ((spriteBit b bit0 ^^^ d.pix ((sx + bit0) % d.width) y) == 0)) ||
      List.any rest (fun bit =>
        (d.pix ((sx + bit) % d.width) y == 1) && (spriteBit b bit == 1))) = _
    rw [hcoll, Bool.or_assoc]

/-- Auxiliary: the 8 column targets of one sprite byte are distinct when 8 ≤ width. -/
theorem byte_targets_inj (d : Disp) (sx : Nat) (hw : 8 ≤ d.width) :
    ∀ b1 ∈ List.range 8, ∀ b2 ∈ List.range 8,
      (sx + b1) % d.width = (sx + b2) % d.width → b1 = b2 := by
  intro b1 h1 b2 h2 h
  rw [List.mem_range] at h1 h2
  exact add_mod_inj sx b1 b2 d.width (by omega) (by omega) h

/-- Auxiliary: `draw_byte` leaves width, height and the hi-res flag unchanged. -/
theorem draw_byte_frame (d : Disp) (sx y b : Nat) :
    (d.draw_byte sx y b).1.width = d.width ∧ (d.draw_byte sx y b).1.height = d.height ∧
      (d.draw_byte sx y b).1.hires = d.hires :=
  drawBits_frame (List.range 8) d false sx y b

/-- Auxiliary: `draw_byte` does not change pixels outside its 8 targets. -/
theorem draw_byte_pix_ne (d : Disp) (sx y b a c : Nat)
    (h : ∀ i < 8, ¬(a = (sx + i) % d.width ∧ c = y)) :
    (d.draw_byte sx y b).1.pix a c = d.pix a c := by
  refine drawBits_pix_ne (List.range 8) d false sx y b a c ?_
  intro bit hbit
  exact h bit (List.mem_range.mp hbit)

/-- Auxiliary: `draw_byte` XORs each of its 8 targets with the sprite bit. -/
theorem draw_byte_pix_hit (d : Disp) (sx y b i : Nat) (hi : i < 8) (hw : 8 ≤ d.width) :
    (d.draw_byte sx y b).1.pix ((sx + i) % d.width) y =
      spriteBit b i ^^^ d.pix ((sx + i) % d.width) y :=
  drawBits_pix_hit (List.range 8) d false sx y b i (List.nodup_range 8)
    (List.mem_range.mpr hi) (byte_targets_inj d sx hw)

/-- Auxiliary: `draw_byte`'s collision flag. -/
theorem draw_byte_snd (d : Disp) (sx y b : Nat) (hw : 8 ≤ d.width) :
    (d.draw_byte sx y b).2 = (List.range 8).any (fun i =>
      (d.pix ((sx + i) % d.width) y == 1) && (spriteBit b i == 1)) := by
  have h := drawBits_snd (List.range 8) d false sx y b (List.nodup_range 8)
    (byte_targets_inj d sx hw)
  simpa using h

set_option maxHeartbeats 2000000 in
/-- Auxiliary: the one-step unfolding of the `draw` loop. -/
theorem drawAux_cons (d : Disp) (po : Bool) (sx y0 b : Nat) (rest : List Nat) :
    Disp.drawAux d po sx y0 (b :: rest) =
      Disp.drawAux (d.draw_byte sx y0 b).1 (po || (d.draw_byte sx y0 b).2) sx
        ((y0 + 1) % (d.draw_byte sx y0 b).1.height) rest := by
  simp only [Disp.drawAux]

/-- Auxiliary: full characterization of the `draw` loop — frame preservation,
pixels outside the targeted positions, the XOR on targeted pixels, and the
collision flag — for a starting row `y0 < height` and at most `height` rows. -/
theorem drawAux_spec (mem : List Nat) : ∀ (d : Disp) (po : Bool) (sx y0 : Nat),
    8 ≤ d.width → y0 < d.height → mem.length ≤ d.height →
    ((d.drawAux po sx y0 mem).1.width = d.width ∧
      (d.drawAux po sx y0 mem).1.height = d.height ∧
      (d.drawAux po sx y0 mem).1.hires = d.hires) ∧
    (∀ a c : Nat, (∀ j < mem.length, ∀ i < 8,
        ¬(a = (sx + i) % d.width ∧ c = (y0 + j) % d.height)) →
      (d.drawAux po sx y0 mem).1.pix a c = d.pix a c) ∧
    (∀ j < mem.length, ∀ i < 8,
      (d.drawAux po sx y0 mem).1.pix ((sx + i) % d.width) ((y0 + j) % d.height) =
        spriteBit (mem.getD j 0) i ^^^
          d.pix ((sx + i) % d.width) ((y0 + j) % d.height)) ∧
    ((d.drawAux po sx y0 mem).2 = (po || (List.range mem.length).any (fun j =>
      (List.range 8).any (fun i =>
        (d.pix ((sx + i) % d.width) ((y0 + j) % d.height) == 1) &&
          (spriteBit (mem.getD j 0) i == 1))))) := by
  induction mem with
  | nil =>
    intro d po sx y0 _ _ _
    refine ⟨⟨rfl, rfl, rfl⟩, fun a c _ => rfl,
      fun j hj => absurd hj (by simp), ?_⟩
    have hnil : (Disp.drawAux d po sx y0 []).2 = po := rfl
    rw [hnil]
    simp
  | cons byte rest ih =>
    intro d po sx y0 hw hy0 hlen
    rw [drawAux_cons]
    obtain ⟨d2, c2, hdb⟩ : ∃ d2 c2, d.draw_byte sx y0 byte = (d2, c2) := ⟨_, _, rfl⟩
    rw [hdb]
    have hframe := draw_byte_frame d sx y0 byte
    rw [hdb] at hframe
    obtain ⟨hfw, hfh, hfhr⟩ := hframe
    have hsnd2 : c2 = (List.range 8).any (fun i =>
        (d.pix ((sx + i) % d.width) y0 == 1) && (spriteBit byte i == 1)) := by
      have h2 := draw_byte_snd d sx y0 byte hw
      rw [hdb] at h2
      exact h2
    have hlenr : rest.length + 1 ≤ d.height := by simpa using hlen
    have IH := ih d2 (po || c2) sx ((y0 + 1) % d2.height)
      (by rw [hfw]; exact hw)
      (by rw [hfh]; exact Nat.mod_lt _ (by omega))
      (by rw [hfh]; omega)
    have hrow : ∀ j : Nat, ((y0 + 1) % d2.height + j) % d2.height =
        (y0 + (j + 1)) % d.height := by
      intro j
      rw [hfh, Nat.mod_add_mod]
      congr 1
      omega
    have hy0m : y0 % d.height = y0 := Nat.mod_eq_of_lt hy0
    have hrow0 : (y0 + 0) % d.height = y0 := by rw [Nat.add_zero, hy0m]
    have hrowne : ∀ j, j < rest.length → (y0 + (j + 1)) % d.height ≠ y0 := by
      intro j hj
      have hne := add_mod_ne y0 (j + 1) d.height (by omega) (by omega)
      rw [hy0m] at hne
      exact hne
    have hd2ne : ∀ a c : Nat, (∀ i < 8, ¬(a = (sx + i) % d.width ∧ c = y0)) →
        d2.pix a c = d.pix a c := by
      intro a c h
      have h2 := draw_byte_pix_ne d sx y0 byte a c h
      rw [hdb] at h2
      exact h2
    have hd2hit : ∀ i < 8, d2.pix ((sx + i) % d.width) y0 =
        spriteBit byte i ^^^ d.pix ((sx + i) % d.width) y0 := by
      intro i hi
      have h2 := draw_byte_pix_hit d sx y0 byte i hi hw
      rw [hdb] at h2
      exact h2
    refine ⟨?_, ?_, ?_, ?_⟩
    · exact ⟨IH.1.1.trans hfw, IH.1.2.1.trans hfh, IH.1.2.2.trans hfhr⟩
    · intro a c hno
      refine (IH.2.1 a c ?_).trans ?_
      · intro j hj i hi
        rw [hfw, hrow j]
        exact hno (j + 1) (by simp only [List.length_cons]; omega) i hi
      · refine hd2ne a c ?_
        intro i hi
        have hn := hno 0 (by simp) i hi
        rw [hrow0] at hn
        exact hn
    · intro j hj i hi
      cases j with
      | zero =>
        rw [hrow0, List.getD_cons_zero]
        refine (IH.2.1 ((sx + i) % d.width) y0 ?_).trans (hd2hit i hi)
        intro j2 hj2 i2 hi2
        rw [hfw, hrow j2]
        intro hc
        exact hrowne j2 hj2 hc.2.symm
      | succ j2 =>
        rw [List.getD_cons_succ]
        have hjlt : j2 < rest.length := by
          simp only [List.length_cons] at hj
          omega
        have hhit := IH.2.2.1 j2 hjlt i hi
        rw [hfw, hrow j2] at hhit
        have hpix : d2.pix ((sx + i) % d.width) ((y0 + (j2 + 1)) % d.height) =
            d.pix ((sx + i) % d.width) ((y0 + (j2 + 1)) % d.height) := by
          refine hd2ne _ _ ?_
          intro i2 hi2 hc
          exact hrowne j2 hjlt hc.2
        exact hhit.trans (congrArg (fun t => spriteBit (rest.getD j2 0) i ^^^ t) hpix)
    · have hf1 : ∀ j ∈ List.range rest.length,
          (List.range 8).any (fun i =>
            (d2.pix ((sx + i) % d2.width) (((y0 + 1) % d2.height + j) % d2.height) == 1) &&
            (spriteBit (rest.getD j 0) i == 1)) =
          (List.range 8).any (fun i =>
            (d.pix ((sx + i) % d.width) ((y0 + (j + 1)) % d.height) == 1) &&
            (spriteBit (rest.getD j 0) i == 1)) := by
        intro j hj
        refine list_any_congr _ _ _ ?_
        intro i hi
        have hjlt : j < rest.length := List.mem_range.mp hj
        rw [hfw, hrow j]
        refine congrArg (fun t => (t == 1) && (spriteBit (rest.getD j 0) i == 1)) ?_
        refine hd2ne _ _ ?_
        intro i2 hi2 hc
        exact hrowne j hjlt hc.2
      have hA := list_any_congr (List.range rest.length) _ _ hf1
      refine IH.2.2.2.trans ?_
      rw [hA, hsnd2]
      rw [List.length_cons,
        show List.range (rest.length + 1) = 0 :: (List.range rest.length).map Nat.succ from
          List.range_succ_eq_map rest.length,
        List.any_cons, List.any_map]
      have hB : (List.range rest.length).any ((fun j =>
          (List.range 8).any (fun i =>
            (d.pix ((sx + i) % d.width) ((y0 + j) % d.height) == 1) &&
            (spriteBit ((byte :: rest).getD j 0) i == 1))) ∘ Nat.succ) =
          (List.range rest.length).any (fun j =>
            (List.range 8).any (fun i =>
              (d.pix ((sx + i) % d.width) ((y0 + (j + 1)) % d.height) == 1) &&
              (spriteBit (rest.getD j 0) i == 1))) := by
        refine list_any_congr _ _ _ ?_
        intro j hj
        simp only [Function.comp_apply, Nat.succ_eq_add_one, List.getD_cons_succ]
      rw [hB]
      have hg0 : (List.range 8).any (fun i =>
            (d.pix ((sx + i) % d.width) ((y0 + 0) % d.height) == 1) &&
            (spriteBit ((byte :: rest).getD 0 0) i == 1)) =
          (List.range 8).any (fun i =>
            (d.pix ((sx + i) % d.width) y0 == 1) && (spriteBit byte i == 1)) := by
        simp only [List.getD_cons_zero]
        rw [hrow0]
      rw [hg0, Bool.or_assoc]

/-- C6: `draw` computes every targeted pixel as `old XOR sprite_bit` (columns wrap
per bit modulo the width, rows wrap modulo the height), leaves every other pixel
unchanged, and returns true exactly when some pixel went 1 → 0 (a 0 → 1 change is
never a collision); consequently an immediate second identical `draw` restores every
pixel, and that second call reports a collision exactly when the first draw had set
(turned on) some pixel. -/
theorem draw_xor_collision_spec (d : Disp) (mem : List Nat) (sx sy : Nat)
    (hw : 8 ≤ d.width) (hh : 0 < d.height) (hm : mem.length ≤ d.height) :
    (∀ j < mem.length, ∀ i < 8,
      (d.draw sx sy mem).1.pix ((sx + i) % d.width) ((sy + j) % d.height) =
        spriteBit (mem.getD j 0) i ^^^
          d.pix ((sx + i) % d.width) ((sy + j) % d.height)) ∧
    (∀ a c : Nat, (∀ j < mem.length, ∀ i < 8,
        ¬(a = (sx + i) % d.width ∧ c = (sy + j) % d.height)) →
      (d.draw sx sy mem).1.pix a c = d.pix a c) ∧
    ((d.draw sx sy mem).2 = true ↔ ∃ j < mem.length, ∃ i < 8,
      spriteBit (mem.getD j 0) i = 1 ∧
        d.pix ((sx + i) % d.width) ((sy + j) % d.height) = 1) ∧
    (∀ a c : Nat, ((d.draw sx sy mem).1.draw sx sy mem).1.pix a c = d.pix a c) ∧
    (((d.draw sx sy mem).1.draw sx sy mem).2 = true ↔ ∃ j < mem.length, ∃ i < 8,
      spriteBit (mem.getD j 0) i = 1 ∧
        d.pix ((sx + i) % d.width) ((sy + j) % d.height) = 0) := by
  have hy0 : sy % d.height < d.height := Nat.mod_lt _ hh
  have S := drawAux_spec mem d false sx (sy % d.height) hw hy0 hm
  simp only [Nat.mod_add_mod] at S
  obtain ⟨⟨hfw, hfh, hfhr⟩, Sne, Shit, Ssnd⟩ := S
  have hdef : d.draw sx sy mem = d.drawAux false sx (sy % d.height) mem := rfl
  rw [hdef]
  have S2 := drawAux_spec mem (d.drawAux false sx (sy % d.height) mem).1 false sx
    (sy % (d.drawAux false sx (sy % d.height) mem).1.height)
    (by rw [hfw]; exact hw) (by rw [hfh]; exact hy0) (by rw [hfh]; exact hm)
  rw [hfh] at S2
  simp only [Nat.mod_add_mod] at S2
  rw [hfw] at S2
  obtain ⟨_, S2ne, S2hit, S2snd⟩ := S2
  have hdef2 : (d.drawAux false sx (sy % d.height) mem).1.draw sx sy mem =
      (d.drawAux false sx (sy % d.height) mem).1.drawAux false sx
        (sy % (d.drawAux false sx (sy % d.height) mem).1.height) mem := rfl
  rw [hdef2, hfh]
  refine ⟨Shit, Sne, ?_, ?_, ?_⟩
  · rw [Ssnd]
    simp only [Bool.false_or, List.any_eq_true, List.mem_range, Bool.and_eq_true,
      beq_iff_eq]
    constructor
    · rintro ⟨j, hj, i, hi, h1, h2⟩
      exact ⟨j, hj, i, hi, h2, h1⟩
    · rintro ⟨j, hj, i, hi, h1, h2⟩
      exact ⟨j, hj, i, hi, h2, h1⟩
  · intro a c
    by_cases hcond : ∀ j < mem.length, ∀ i < 8,
        ¬(a = (sx + i) % d.width ∧ c = (sy + j) % d.height)
    · exact (S2ne a c hcond).trans (Sne a c hcond)
    · push_neg at hcond
      obtain ⟨j, hj, i, hi, ha, hc⟩ := hcond
      subst ha
      subst hc
      rw [S2hit j hj i hi, Shit j hj i hi]
      exact Nat.xor_cancel_left _ _
  · rw [S2snd]
    simp only [Bool.false_or, List.any_eq_true, List.mem_range, Bool.and_eq_true,
      beq_iff_eq]
    constructor
    · rintro ⟨j, hj, i, hi, hpix, hbit⟩
      rw [Shit j hj i hi, hbit] at hpix
      refine ⟨j, hj, i, hi, hbit, ?_⟩
      have hold := (Nat.xor_cancel_left 1 (d.pix ((sx + i) % d.width)
        ((sy + j) % d.height))).symm
      rw [hpix] at hold
      simpa using hold
    · rintro ⟨j, hj, i, hi, hbit, hold⟩
      refine ⟨j, hj, i, hi, ?_, hbit⟩
      rw [Shit j hj i hi, hbit, hold]
      decide

/-- C6 witness: the draw statement instantiated at an all-dark 64×32 display, the
one-byte sprite `[255]`, drawn at the origin. -/
theorem draw_xor_collision_spec_witness :
    (∀ j < ([255] : List Nat).length, ∀ i < 8,
      (Disp.draw ⟨64, 32, false, fun _ _ => 0⟩ 0 0 [255]).1.pix ((0 + i) % 64)
          ((0 + j) % 32) =
        spriteBit (([255] : List Nat).getD j 0) i ^^^ 0) ∧
    (∀ a c : Nat, (∀ j < ([255] : List Nat).length, ∀ i < 8,
        ¬(a = (0 + i) % 64 ∧ c = (0 + j) % 32)) →
      (Disp.draw ⟨64, 32, false, fun _ _ => 0⟩ 0 0 [255]).1.pix a c = 0) ∧
    ((Disp.draw ⟨64, 32, false, fun _ _ => 0⟩ 0 0 [255]).2 = true ↔
      ∃ j < ([255] : List Nat).length, ∃ i < 8,
        spriteBit (([255] : List Nat).getD j 0) i = 1 ∧ (0 : Nat) = 1) ∧
    (∀ a c : Nat,
      ((Disp.draw ⟨64, 32, false, fun _ _ => 0⟩ 0 0 [255]).1.draw 0 0 [255]).1.pix a c =
        0) ∧
    (((Disp.draw ⟨64, 32, false, fun _ _ => 0⟩ 0 0 [255]).1.draw 0 0 [255]).2 = true ↔
      ∃ j < ([255] : List Nat).length, ∃ i < 8,
        spriteBit (([255] : List Nat).getD j 0) i = 1 ∧ (0 : Nat) = 0) :=
  draw_xor_collision_spec ⟨64, 32, false, fun _ _ => 0⟩ [255] 0 0
    (by decide) (by decide) (by decide)

set_option maxHeartbeats 2000000 in
/-- C1: the Rust loop header `for _ in 1..16` in `schip_draw` iterates only 15
times, so only 15 of the 16 row-pairs of the 32-byte sprite are blitted: drawing
the all-ones 32-byte sprite at the origin of an all-dark 64×32 display lights
row 14 but leaves row 15 dark, even though the 16th row-pair (bytes 30 and 31 of
the sprite memory, whose bits are all set) should have been blitted at row 15. -/
theorem schip_draw_misses_16th_row :
    ((Disp.schip_draw ⟨64, 32, false, fun _ _ => 0⟩ 0 0
        (List.replicate 32 255)).1.pix 0 14 = 1) ∧
    ((Disp.schip_draw ⟨64, 32, false, fun _ _ => 0⟩ 0 0
        (List.replicate 32 255)).1.pix 0 15 = 0) ∧
    spriteBit ((List.replicate 32 (255 : Nat)).getD 30 0) 0 = 1 := by
  refine ⟨?_, ?_, ?_⟩ <;> decide

/-- Auxiliary: `Vec::resize` always yields the requested length. -/
theorem listResize_length (l : List α) (n : Nat) (v : α) : (listResize l n v).length = n := by
  unfold listResize
  rw [List.length_append, List.length_take, List.length_replicate]
  omega

/-- Auxiliary: clearing a buffer of the given dimensions yields the all-false grid. -/
theorem clear_buffer (buf : List (List Bool)) (w h : Nat)
    (hlen : buf.length = h) (hrow : ∀ r ∈ buf, r.length = w) :
    buf.map (fun row => row.map (fun _ => false)) =
      List.replicate h (List.replicate w false) := by
  rw [List.eq_replicate_iff]
  constructor
  · rw [List.length_map, hlen]
  · intro b hb
    rw [List.mem_map] at hb
    obtain ⟨r, hr, hrb⟩ := hb
    rw [← hrb, List.map_const' r false, hrow r hr]

/-- Auxiliary: `set_hires` always leaves the hi-res flag equal to the request. -/
theorem set_hires_hires (d : BoolDisplay) (o : Bool) : (d.set_hires o).hires = o := by
  unfold BoolDisplay.set_hires
  by_cases h : d.hires = o
  · rw [if_pos h]
    exact h
  · rw [if_neg h]
    cases o <;> simp [BoolDisplay.clear]

/-- C8: requesting the mode the display is already in is a complete no-op (buffer,
width, height, scale all unchanged, no clear); a genuine switch to hi-res resizes to
128×64 and leaves every pixel cleared, and a genuine switch back to lo-res (from a
well-formed 64-row × 128-column hi-res buffer) resizes to 64×32 and leaves every
pixel cleared. -/
theorem set_hires_spec (d : BoolDisplay) :
    d.set_hires d.hires = d ∧
    (d.hires = false → d.set_hires true =
      { buffer := List.replicate (HEIGHT * 2) (List.replicate (WIDTH * 2) false),
        scale := d.scale / 2, width := WIDTH * 2, height := HEIGHT * 2, hires := true }) ∧
    (d.hires = true → d.buffer.length = HEIGHT * 2 →
      (∀ r ∈ d.buffer, r.length = WIDTH * 2) → d.set_hires false =
      { buffer := List.replicate HEIGHT (List.replicate WIDTH false),
        scale := d.scale * 2, width := WIDTH, height := HEIGHT, hires := false }) := by
  refine ⟨?_, ?_, ?_⟩
  · unfold BoolDisplay.set_hires
    rw [if_pos rfl]
  · intro h0
    obtain ⟨buf, sc, w, ht, hi⟩ := d
    simp only at h0
    subst h0
    show BoolDisplay.clear
        { buffer := (listResize buf (HEIGHT * 2)
            (List.replicate (WIDTH * 2) false)).map
            (fun row => listResize row (WIDTH * 2) false),
          scale := sc / 2, width := WIDTH * 2, height := HEIGHT * 2, hires := true } = _
    unfold BoolDisplay.clear
    simp only [BoolDisplay.mk.injEq, and_true, true_and]
    refine clear_buffer _ (WIDTH * 2) (HEIGHT * 2) ?_ ?_
    · rw [List.length_map, listResize_length]
    · intro r hr
      rw [List.mem_map] at hr
      obtain ⟨r0, hr0, hrr⟩ := hr
      rw [← hrr, listResize_length]
  · intro h1 hblen hbrow
    obtain ⟨buf, sc, w, ht, hi⟩ := d
    simp only at h1 hblen hbrow
    subst h1
    show BoolDisplay.clear
        { buffer := (buf.take HEIGHT).map (fun row => row.take WIDTH),
          scale := sc * 2, width := WIDTH, height := HEIGHT, hires := false } = _
    unfold BoolDisplay.clear
    simp only [BoolDisplay.mk.injEq, and_true, true_and]
    refine clear_buffer _ WIDTH HEIGHT ?_ ?_
    · rw [List.length_map, List.length_take, hblen]
      decide
    · intro r hr
      rw [List.mem_map] at hr
      obtain ⟨r0, hr0, hrr⟩ := hr
      have hr0mem : r0 ∈ buf := List.mem_of_mem_take hr0
      rw [← hrr, List.length_take, hbrow r0 hr0mem]
      decide

/-- C8 witness: the statement instantiated at the freshly constructed lo-res display
of scale 8; switching to hi-res yields the cleared 128×64 buffer. -/
theorem set_hires_spec_witness :
    (BoolDisplay.new 8).set_hires (BoolDisplay.new 8).hires = BoolDisplay.new 8 ∧
    (BoolDisplay.new 8).set_hires true =
      { buffer := List.replicate (HEIGHT * 2) (List.replicate (WIDTH * 2) false),
        scale := (BoolDisplay.new 8).scale / 2, width := WIDTH * 2, height := HEIGHT * 2,
        hires := true } := by
  have h := set_hires_spec (BoolDisplay.new 8)
  exact ⟨h.1, h.2.1 rfl⟩

/-- C7 counterexample: `reset` does not restore the 8 SCHIP flag registers to their
initial (all-zero) values: on a state whose flag bank holds `[1,0,0,0,0,0,0,0]`,
the flag bank still holds that value after `reset`. -/
theorem reset_keeps_flag_registers :
    (Cpu.reset
      { i := 7, v := List.replicate 16 3, flag := 1 :: List.replicate 7 0, delay := 2,
        sound := 2, ram := List.replicate 4096 0, pc := 600, stack := Stack.new,
        display := BoolDisplay.new 8, keyboard := Keyboard.default, clock_rate_hz := 500,
        cpu_timer := Timer.new 500, delay_timer := Timer.new 60,
        num_instructions_per_decrement := 8 }).flag = 1 :: List.replicate 7 0 ∧
    ¬(Cpu.reset
      { i := 7, v := List.replicate 16 3, flag := 1 :: List.replicate 7 0, delay := 2,
        sound := 2, ram := List.replicate 4096 0, pc := 600, stack := Stack.new,
        display := BoolDisplay.new 8, keyboard := Keyboard.default, clock_rate_hz := 500,
        cpu_timer := Timer.new 500, delay_timer := Timer.new 60,
        num_instructions_per_decrement := 8 }).flag = List.replicate 8 0 := by
  constructor
  · rfl
  · decide

/-- C7 (amended): `reset` restores the 16 general registers, the address register I,
the delay and sound registers, the stack depth, the program counter (to 512), the
display's hi-res mode and the keyboard wait state to their initial values, while
leaving the 8 SCHIP flag registers, all 4096 RAM bytes (ROM and font included), the
stored stack slots and the pressed-key states unchanged. -/
theorem reset_spec (c : Cpu) :
    (c.reset).i = 0 ∧ (c.reset).v = List.replicate NUM_REGISTERS 0 ∧
    (c.reset).delay = 0 ∧ (c.reset).sound = 0 ∧ (c.reset).pc = PROGRAM_OFFSET ∧
    (c.reset).stack.sp = 0 ∧ (c.reset).display.hires = false ∧
    (c.reset).keyboard.keywait = KeyWait.None ∧
    (c.reset).flag = c.flag ∧ (c.reset).ram = c.ram ∧
    (c.reset).stack.stack = c.stack.stack ∧ (c.reset).keyboard.keys = c.keyboard.keys :=
  ⟨rfl, rfl, rfl, rfl, rfl, rfl, set_hires_hires c.display false, rfl, rfl, rfl, rfl,
    rfl⟩

/-- C4: while the key-wait opcode `Fx0A` executes with no key press delivered
(wait state `None` or `Wait`), the program counter's net change is zero and the
registers are untouched, the state being (re-)armed to `Wait`; when
`toggle_key(key, true)` arrives while the state is `Wait`, the very next execution
stores the key code into `Vx`, resets the wait state to `None`, and advances the pc
by exactly 2 — and only once: executing the opcode again does not advance it
further. -/
theorem executeFx0A_spec (c : Cpu) (x key : Nat) (hpc : 2 ≤ c.pc) :
    (c.keyboard.keywait = KeyWait.None →
      (c.executeFx0A x).pc = c.pc ∧ (c.executeFx0A x).v = c.v ∧
        (c.executeFx0A x).keyboard.keywait = KeyWait.Wait) ∧
    (c.keyboard.keywait = KeyWait.Wait →
      (c.executeFx0A x).pc = c.pc ∧ (c.executeFx0A x).v = c.v ∧
        (c.executeFx0A x).keyboard.keywait = KeyWait.Wait) ∧
    (c.keyboard.keywait = KeyWait.Wait →
      ({ c with keyboard := c.keyboard.toggle_key key true } : Cpu).keyboard.keywait =
        KeyWait.Pressed key ∧
      (({ c with keyboard := c.keyboard.toggle_key key true } : Cpu).executeFx0A x).pc =
        c.pc + 2 ∧
      (({ c with keyboard := c.keyboard.toggle_key key true } : Cpu).executeFx0A x).v =
        c.v.set x key ∧
      (({ c with keyboard := c.keyboard.toggle_key key true } : Cpu).executeFx0A
          x).keyboard.keywait = KeyWait.None ∧
      ((({ c with keyboard := c.keyboard.toggle_key key true } : Cpu).executeFx0A
          x).executeFx0A x).pc =
        (({ c with keyboard := c.keyboard.toggle_key key true } : Cpu).executeFx0A
          x).pc) := by
  refine ⟨?_, ?_, ?_⟩
  · intro hkw
    refine ⟨?_, ?_, ?_⟩
    · have h1 : (c.executeFx0A x).pc = c.pc - 2 + 2 := by
        simp [Cpu.executeFx0A, hkw]
      rw [h1]
      omega
    · simp [Cpu.executeFx0A, hkw]
    · simp [Cpu.executeFx0A, hkw]
  · intro hkw
    refine ⟨?_, ?_, ?_⟩
    · have h1 : (c.executeFx0A x).pc = c.pc - 2 + 2 := by
        simp [Cpu.executeFx0A, hkw]
      rw [h1]
      omega
    · simp [Cpu.executeFx0A, hkw]
    · simp [Cpu.executeFx0A, hkw]
  · intro hkw
    have htog : (c.keyboard.toggle_key key true).keywait = KeyWait.Pressed key := by
      unfold Keyboard.toggle_key
      simp only
      rw [if_pos (And.intro trivial hkw)]
    refine ⟨htog, ?_, ?_, ?_, ?_⟩
    · simp [Cpu.executeFx0A, htog]
    · simp [Cpu.executeFx0A, htog]
    · simp [Cpu.executeFx0A, htog]
    · simp [Cpu.executeFx0A, htog]

/-- C4 witness: the key-wait statement instantiated at a waiting machine with
`pc = 512`, destination register 0, key 5. -/
theorem executeFx0A_spec_witness :
    ((({ i := 0, v := List.replicate 16 0, flag := List.replicate 8 0, delay := 0,
          sound := 0, ram := List.replicate 4096 0, pc := 512, stack := Stack.new,
          display := BoolDisplay.new 8,
          keyboard := { keys := List.replicate 16 false, keywait := KeyWait.Wait },
          clock_rate_hz := 500, cpu_timer := Timer.new 500,
          delay_timer := Timer.new 60,
          num_instructions_per_decrement := 8 } : Cpu).executeFx0A 0).pc = 512) ∧
    (({ i := 0, v := List.replicate 16 0, flag := List.replicate 8 0, delay := 0,
          sound := 0, ram := List.replicate 4096 0, pc := 512, stack := Stack.new,
          display := BoolDisplay.new 8,
          keyboard := { keys := List.replicate 16 false, keywait := KeyWait.Wait },
          clock_rate_hz := 500, cpu_timer := Timer.new 500,
          delay_timer := Timer.new 60,
          num_instructions_per_decrement := 8 } : Cpu).keyboard.toggle_key 5
        true).keywait = KeyWait.Pressed 5 := by
  have h := executeFx0A_spec
    { i := 0, v := List.replicate 16 0, flag := List.replicate 8 0, delay := 0,
      sound := 0, ram := List.replicate 4096 0, pc := 512, stack := Stack.new,
      display := BoolDisplay.new 8,
      keyboard := { keys := List.replicate 16 false, keywait := KeyWait.Wait },
      clock_rate_hz := 500, cpu_timer := Timer.new 500, delay_timer := Timer.new 60,
      num_instructions_per_decrement := 8 } 0 5 (by decide)
  exact ⟨(h.2.1 rfl).1, (h.2.2 rfl).1⟩

end Oxi8
